import Mathlib

set_option maxRecDepth 100000

/-!
Verification development for the Switch-Fightstick posts-printer firmware
(src/Joystick.c).  The core report-generation state machine (GetNextReport,
complete_zig_zag_pattern, the is_black pixel lookup and the HID_Task
endpoint loop) is embedded shallowly below, in its default build
configuration: the SYNC_TO_30_FPS and SKIP_BLANKS toggles are commented out
in the source, so ECHOES is 4, the report_count injection path is not
compiled, and skip_blanks is not compiled.

C int variables are modelled as Nat where the source only ever increments
or zeroes them (command_count, echoes) and as Int where they are also
decremented (xpos, ypos).  The C remainder operator on int is truncated
remainder, modelled by Int.tmod.  Hardware register writes (PORTB, PORTD
LED toggling) are observability side effects with no influence on the
report stream and are not modelled.
-/

/-- Modelled from the spec: the polling interval constant POLLING_MS lives in
Joystick.h, which is not part of the available source.  The source comments
state that the host accepts reports every 8 ms, and the macro ms_2_count
clamps the divisor from below with max(POLLING_MS, 8), so every value up to
8 produces the same tick counts.  We take 8. -/
def POLLING_MS : ℕ := 8

/-- ECHOES in the default configuration (SYNC_TO_30_FPS disabled). -/
def ECHOES : ℕ := 4

/-- Modelled from the spec: button bit masks come from Joystick.h (not in the
available source); the spec only requires a bitmask with distinct flags for
at least L, R, A and left-stick-click.  The values are the standard HORI
Pokken pad report layout. -/
def SWITCH_A : ℕ := 4

def SWITCH_L : ℕ := 16

def SWITCH_R : ℕ := 32

def SWITCH_LCLICK : ℕ := 1024

/-- Modelled from the spec: hat values from Joystick.h (not in the available
source); the spec requires nine symbolic directions including a centered
sentinel.  Standard values: TOP = 0, RIGHT = 2, BOTTOM = 4, LEFT = 6,
CENTER = 8. -/
def HAT_TOP : ℕ := 0

def HAT_RIGHT : ℕ := 2

def HAT_BOTTOM : ℕ := 4

def HAT_LEFT : ℕ := 6

def HAT_CENTER : ℕ := 8

/-- Modelled from the spec: stick axis constants from Joystick.h. -/
def STICK_MIN : ℕ := 0

def STICK_CENTER : ℕ := 128

def STICK_MAX : ℕ := 255

/-- Bitmap width in pixels: the image rows are 40 bytes of 8 pixels. -/
def IMG_WIDTH : ℕ := 320

/-- Bitmap height in pixels: drawing ends once ypos exceeds 119. -/
def IMG_HEIGHT : ℕ := 120

/-- The macro ms_2_count(ms) = ms / (ECHOES + 1) / (max(POLLING_MS, 8) / 8 * 8),
with C integer division. -/
def ms_2_count (ms : ℕ) : ℕ := ms / (ECHOES + 1) / (max POLLING_MS 8 / 8 * 8)

/-- Modelled from the spec: the report structure USB_JoystickReport_Input_t is
declared in Joystick.h (not in the available source).  The spec gives its
fields: a button bitmask, a hat value, and four stick axis bytes. -/
structure Report where
  Button : ℕ
  HAT : ℕ
  LX : ℕ
  LY : ℕ
  RX : ℕ
  RY : ℕ
deriving DecidableEq

/-- The report prepared by the fresh path of GetNextReport before the state
switch: memset to zero, then all four axes set to STICK_CENTER and the hat
set to HAT_CENTER. -/
def neutralReport : Report :=
  { Button := 0, HAT := HAT_CENTER, LX := STICK_CENTER, LY := STICK_CENTER,
    RX := STICK_CENTER, RY := STICK_CENTER }

/-- The zero-initialized global last_report at program start. -/
def zeroReport : Report :=
  { Button := 0, HAT := 0, LX := 0, LY := 0, RX := 0, RY := 0 }

/-- State_t from the source. -/
inductive PState where
  | SYNC_CONTROLLER
  | SYNC_POSITION
  | ZIG_ZAG
  | DONE
deriving DecidableEq

/-- The mutable globals of the printer core: state, last_report, echoes,
command_count, xpos, ypos. -/
structure Mach where
  state : PState
  last_report : Report
  echoes : ℕ
  command_count : ℕ
  xpos : ℤ
  ypos : ℤ
deriving DecidableEq

/-- The globals as initialized at program start. -/
def initMach : Mach :=
  { state := .SYNC_CONTROLLER, last_report := zeroReport, echoes := 0,
    command_count := 0, xpos := 0, ypos := 0 }

/-- The macro is_black(x, y) = image_data[x / 8 + y * 40] & (1 << (x % 8)),
on natural coordinates.  The bitmap content image_data is an extern array of
0x12c1 bytes defined outside the available source, so it is a parameter: a
total byte function standing for the flash contents (indices past the array
read unspecified neighbouring flash). -/
def is_black (img : ℕ → ℕ) (x y : ℕ) : Bool :=
  (img (x / 8 + y * 40)).testBit (x % 8)

/-- is_black lifted to the int-typed cursor coordinates.  For negative
coordinates the C macro shifts by a negative amount, which is undefined
behaviour in C; the model returns false on that branch and no theorem below
evaluates it there. -/
def is_blackZ (img : ℕ → ℕ) (x y : ℤ) : Bool :=
  if 0 ≤ x ∧ 0 ≤ y then is_black img x.toNat y.toNat else false

/-- The hat value chosen by complete_zig_zag_pattern for a given entering
command_count and ypos: after the wrap check (command_count == 643 resets to
0), odd counts move horizontally (right when ypos % 4 < 2, with C truncated
remainder, else left), counts divisible by 4 move down, the remaining even
counts move up; counts 639 and 641 are overridden to down and counts 640 and
642 to center. -/
def zigzag_hat (cc : ℕ) (y : ℤ) : ℕ :=
  let c := if cc = 643 then 0 else cc
  let h :=
    if c % 2 = 1 then (if Int.tmod y 4 < 2 then HAT_RIGHT else HAT_LEFT)
    else if c % 4 = 0 then HAT_BOTTOM
    else HAT_TOP
  if c = 639 ∨ c = 641 then HAT_BOTTOM
  else if c = 640 ∨ c = 642 then HAT_CENTER
  else h

/-- The command_count update performed by complete_zig_zag_pattern: wrap at
643, then increment. -/
def zigzag_cc (cc : ℕ) : ℕ :=
  (if cc = 643 then 0 else cc) + 1

/-- The cursor update block of GetNextReport: one step right, left, up or
down according to the hat of the prepared report; any other hat (center)
leaves the cursor in place. -/
def move (hat : ℕ) (x y : ℤ) : ℤ × ℤ :=
  if hat = HAT_RIGHT then (x + 1, y)
  else if hat = HAT_LEFT then (x - 1, y)
  else if hat = HAT_TOP then (x, y - 1)
  else if hat = HAT_BOTTOM then (x, y + 1)
  else (x, y)

/-- GetNextReport in the default configuration, as a function of the bitmap,
the externally sampled reset pin (PINB and Reset_Print) and the globals.
Returns the new globals and the report written to ReportData.

Shape of the source: an echo short-circuit; a neutral report preparation;
the state switch (with the DONE arm returning early, before the trailing
last_report/echoes update); a cursor-update-and-ink block guarded by the
post-switch state being ZIG_ZAG; and the trailing store of the report into
last_report together with the echo counter reload. -/
def getNextReport (img : ℕ → ℕ) (reset : Bool) (s : Mach) : Mach × Report :=
  if s.echoes > 0 then
    ({ s with echoes := s.echoes - 1 }, s.last_report)
  else if s.state = .DONE then
    (s, neutralReport)
  else
    let r0 := neutralReport
    let sr : Mach × Report :=
      match s.state with
      | .SYNC_CONTROLLER =>
        if s.command_count > ms_2_count 2000 then
          ({ s with command_count := 0, state := .SYNC_POSITION }, r0)
        else
          let r :=
            if s.command_count = ms_2_count 500 ∨ s.command_count = ms_2_count 1000 then
              { r0 with Button := r0.Button ||| (SWITCH_L ||| SWITCH_R) }
            else if s.command_count = ms_2_count 1500 ∨ s.command_count = ms_2_count 2000 then
              { r0 with Button := r0.Button ||| SWITCH_A }
            else r0
          ({ s with command_count := s.command_count + 1 }, r)
      | .SYNC_POSITION =>
        if s.command_count > ms_2_count 4000 then
          ({ s with command_count := 0, xpos := 0, ypos := 0, state := .ZIG_ZAG }, r0)
        else
          let r1 := { r0 with LX := STICK_MIN, LY := STICK_MIN }
          let r :=
            if s.command_count = ms_2_count 1500 ∨ s.command_count = ms_2_count 3000 then
              { r1 with Button := r1.Button ||| SWITCH_LCLICK }
            else r1
          ({ s with command_count := s.command_count + 1 }, r)
      | .ZIG_ZAG =>
        let r := { r0 with HAT := zigzag_hat s.command_count s.ypos }
        let s1 := { s with command_count := zigzag_cc s.command_count }
        if s.ypos > 119 then ({ s1 with state := .DONE }, r)
        else if reset then ({ s1 with state := .SYNC_POSITION }, r)
        else (s1, r)
      | .DONE => (s, r0)
    let s1 := sr.1
    let r1 := sr.2
    let out : Mach × Report :=
      if s1.state = .ZIG_ZAG then
        let x2 := (move r1.HAT s1.xpos s1.ypos).1
        let y2 := (move r1.HAT s1.xpos s1.ypos).2
        let r2 :=
          if is_blackZ img x2 y2 then { r1 with Button := r1.Button ||| SWITCH_A }
          else r1
        ({ s1 with xpos := x2, ypos := y2 }, r2)
      else (s1, r1)
    ({ out.1 with last_report := out.2, echoes := ECHOES }, out.2)

/-- HID_Task for one loop iteration, restricted to its decision content: if
the device is not configured nothing happens; otherwise an OUT packet, when
received, is read into a local buffer that is abandoned, and the OUT
endpoint is acknowledged; then, if the IN endpoint is ready, GetNextReport
produces the report that is streamed to the host.  The result is (whether
the OUT packet was acknowledged, the report sent if any, the new globals). -/
def HID_Task (configured outReceived outRWAllowed : Bool) (outData : List ℕ)
    (inReady : Bool) (img : ℕ → ℕ) (reset : Bool) (s : Mach) :
    Bool × Option Report × Mach :=
  if configured then
    let _discarded := if outReceived && outRWAllowed then outData else []
    let ack := outReceived
    if inReady then
      let sr := getNextReport img reset s
      (ack, some sr.2, sr.1)
    else (ack, none, s)
  else (false, none, s)

/-- The trajectory of the globals under one tick per call of GetNextReport,
from an arbitrary starting point, with a per-tick reset input stream. -/
def runFrom (img : ℕ → ℕ) (inp : ℕ → Bool) (s : Mach) : ℕ → Mach
  | 0 => s
  | n + 1 => (getNextReport img (inp n) (runFrom img inp s n)).1

/-- The report emitted on tick n (the tick taking runFrom n to runFrom (n+1)). -/
def emitFrom (img : ℕ → ℕ) (inp : ℕ → Bool) (s : Mach) (n : ℕ) : Report :=
  (getNextReport img (inp n) (runFrom img inp s n)).2

/-- The all-blank test bitmap. -/
def img0 : ℕ → ℕ := fun _ => 0

/-- The never-asserted reset input stream. -/
def inp0 : ℕ → Bool := fun _ => false


/-- Concrete test bitmap for the out-of-range lookup counterexample: only
byte 40 (the first byte of pixel row 1) is nonzero, with bit 0 set, so the
only set pixel is (0, 1). -/
def imgC5 : ℕ → ℕ := fun n => if n = 40 then 1 else 0

/-- A state in the echo phase, used to instantiate the pacing theorem. -/
def machEcho : Mach :=
  { state := .ZIG_ZAG, last_report := neutralReport, echoes := 2,
    command_count := 6, xpos := 3, ypos := 1 }

/-- A mid-scan drawing state with the cursor at (3, 1) and counter 5. -/
def machMid : Mach :=
  { state := .ZIG_ZAG, last_report := neutralReport, echoes := 0,
    command_count := 5, xpos := 3, ypos := 1 }

/-- The state reached when the final centered command of the last band is
due (counter 642) and the cursor has already stepped past the last row. -/
def machEdge : Mach :=
  { state := .ZIG_ZAG, last_report := neutralReport, echoes := 0,
    command_count := 642, xpos := 0, ypos := 120 }

/-- The quiescent completed state: DONE with the neutral report latched. -/
def machDone : Mach :=
  { state := .DONE, last_report := neutralReport, echoes := 0,
    command_count := 643, xpos := 0, ypos := 120 }

/-- C2.  During the drawing phase, on every fresh tick that stays in
ZIG_ZAG the emitted report asserts the ink button SWITCH_A exactly when the
bitmap pixel at the cursor position reached on that tick is set, in that
same report and never deferred. -/
theorem C2_ink_same_tick (img : ℕ → ℕ) (rst : Bool) (s : Mach)
    (he : s.echoes = 0) (hs : s.state = .ZIG_ZAG)
    (hstay : (getNextReport img rst s).1.state = .ZIG_ZAG) :
    ((getNextReport img rst s).2.Button &&& SWITCH_A ≠ 0) ↔
      is_blackZ img (getNextReport img rst s).1.xpos (getNextReport img rst s).1.ypos = true := by
  obtain ⟨st, lr, e, cc, x, y⟩ := s
  simp only at he hs
  subst he hs
  by_cases hy : y > 119
  · simp [getNextReport, hy] at hstay
  · by_cases hr : rst = true
    · subst hr; simp [getNextReport, hy] at hstay
    · replace hr : rst = false := by
        cases rst
        · rfl
        · exact absurd rfl hr
      subst hr
      by_cases hb : is_blackZ img (move (zigzag_hat cc y) x y).1 (move (zigzag_hat cc y) x y).2 = true
      · simp [getNextReport, hy, hb]
        decide
      · simp only [Bool.not_eq_true] at hb
        simp [getNextReport, hy, hb]
        decide

/-- Witness for C2 at a concrete mid-scan state. -/
theorem C2_ink_same_tick_witness :
    ((getNextReport img0 false machMid).2.Button &&& SWITCH_A ≠ 0) ↔
      is_blackZ img0 (getNextReport img0 false machMid).1.xpos
        (getNextReport img0 false machMid).1.ypos = true :=
  C2_ink_same_tick img0 false machMid (by decide) (by decide) (by decide)

/-- C10.  On the single fresh tick on which ZIG_ZAG transitions away (to
DONE because ypos exceeds 119, or to SYNC_POSITION because reset is
sampled), the emitted report still carries the hat chosen by
complete_zig_zag_pattern, but the cursor is not moved and the ink button is
not asserted even if the pixel under the cursor is set, because the
position-update-and-ink block requires the post-switch state to still be
ZIG_ZAG. -/
theorem C10_transition_tick (img : ℕ → ℕ) (rst : Bool) (s : Mach)
    (he : s.echoes = 0) (hs : s.state = .ZIG_ZAG)
    (hd : s.ypos > 119 ∨ rst = true) :
    (getNextReport img rst s).2.HAT = zigzag_hat s.command_count s.ypos ∧
    (getNextReport img rst s).2.Button &&& SWITCH_A = 0 ∧
    (getNextReport img rst s).1.xpos = s.xpos ∧
    (getNextReport img rst s).1.ypos = s.ypos ∧
    (getNextReport img rst s).1.state ≠ PState.ZIG_ZAG := by
  obtain ⟨st, lr, e, cc, x, y⟩ := s
  simp only at he hs
  subst he hs
  by_cases hy : y > 119
  · simp [getNextReport, hy]
    decide
  · rcases hd with hd | hd
    · exact absurd hd hy
    · subst hd
      simp [getNextReport, hy]
      decide

/-- Witness for C10 at the completion tick, where the bitmap (all pixels
set) has ink under the resting cursor and SWITCH_A is still not asserted. -/
theorem C10_transition_tick_witness :
    (getNextReport (fun _ => 255) false machEdge).2.HAT = zigzag_hat 642 120 ∧
    (getNextReport (fun _ => 255) false machEdge).2.Button &&& SWITCH_A = 0 ∧
    (getNextReport (fun _ => 255) false machEdge).1.xpos = machEdge.xpos ∧
    (getNextReport (fun _ => 255) false machEdge).1.ypos = machEdge.ypos ∧
    (getNextReport (fun _ => 255) false machEdge).1.state ≠ PState.ZIG_ZAG :=
  C10_transition_tick (fun _ => 255) false machEdge (by decide) (by decide)
    (Or.inl (by decide))

/-- C3 (amended).  Pacing of GetNextReport: a tick entered with echoes
positive emits a byte-identical copy of last_report and decrements echoes; a
tick entered with echoes zero in any state other than DONE stores the fresh
report byte-identically into last_report and reloads echoes with ECHOES; a
tick entered with echoes zero in DONE returns the neutral report without
touching last_report or echoes. -/
theorem C3_echo_pacing (img : ℕ → ℕ) (rst : Bool) (s : Mach) :
    (s.echoes > 0 →
      getNextReport img rst s = ({ s with echoes := s.echoes - 1 }, s.last_report)) ∧
    (s.echoes = 0 → s.state ≠ .DONE →
      (getNextReport img rst s).1.last_report = (getNextReport img rst s).2 ∧
      (getNextReport img rst s).1.echoes = ECHOES) ∧
    (s.echoes = 0 → s.state = .DONE →
      getNextReport img rst s = (s, neutralReport)) := by
  refine ⟨?_, ?_, ?_⟩
  · intro hpos
    simp [getNextReport, hpos]
  · intro he hd
    obtain ⟨st, lr, e, cc, x, y⟩ := s
    simp only at he hd
    subst he
    cases st
    · by_cases h1 : cc > ms_2_count 2000 <;> simp [getNextReport, h1]
    · by_cases h1 : cc > ms_2_count 4000 <;> simp [getNextReport, h1]
    · by_cases hy : y > 119
      · simp [getNextReport, hy]
      · by_cases hr : rst = true
        · subst hr; simp [getNextReport, hy]
        · replace hr : rst = false := by
            cases rst
            · rfl
            · exact absurd rfl hr
          subst hr
          by_cases hb : is_blackZ img (move (zigzag_hat cc y) x y).1 (move (zigzag_hat cc y) x y).2 = true
          · simp [getNextReport, hy, hb]
          · simp only [Bool.not_eq_true] at hb
            simp [getNextReport, hy, hb]
    · exact absurd rfl hd
  · intro he hd
    obtain ⟨st, lr, e, cc, x, y⟩ := s
    simp only at he hd
    subst he hd
    simp [getNextReport]

/-- Counterexample for C3 as stated: on a tick entered with echoes zero in
the DONE state (the situation of every fresh tick after completion) the
code does not reload echoes with the configured echo count ECHOES = 4; it
leaves it at zero. -/
theorem C3_counterexample :
    (getNextReport img0 false machDone).1.echoes = 0 ∧ ECHOES = 4 := by
  decide

/-- Witness for C3 at a concrete echoing state. -/
theorem C3_echo_pacing_witness :
    getNextReport img0 false machEcho =
      ({ machEcho with echoes := machEcho.echoes - 1 }, machEcho.last_report) :=
  (C3_echo_pacing img0 false machEcho).1 (by decide)

/-- C5 (amended).  The is_black macro applies no bounds check: for an
x coordinate past the right edge (320 ≤ x < 640) the lookup aliases to the
pixel (x - 320) one row below, for every bitmap. -/
theorem C5_no_bounds_check (img : ℕ → ℕ) (x y : ℕ)
    (hlo : 320 ≤ x) (hhi : x < 640) :
    is_black img x y = is_black img (x - 320) (y + 1) := by
  unfold is_black
  have h1 : (x - 320) / 8 + (y + 1) * 40 = x / 8 + y * 40 := by omega
  have h2 : (x - 320) % 8 = x % 8 := by omega
  rw [h1, h2]

/-- Counterexample for C5 as stated: the coordinate (320, 0) lies outside
the 320 by 120 bitmap, yet is_black returns true on it for the bitmap whose
only set pixel is (0, 1), because the unchecked address arithmetic reads
that pixel. -/
theorem C5_counterexample :
    is_black imgC5 320 0 = true ∧ ¬ 320 < IMG_WIDTH ∧ imgC5 40 = 1 := by
  decide

/-- Witness for C5 at the concrete aliasing coordinate. -/
theorem C5_no_bounds_check_witness :
    is_black imgC5 320 0 = is_black imgC5 0 1 :=
  C5_no_bounds_check imgC5 320 0 (by decide) (by decide)

/-- C9.  The content of inbound host-to-device reports is read and
discarded without affecting core state or output: two HID_Task invocations
that differ only in the OUT payload return the same acknowledgement, the
same emitted report and the same new globals; and whenever the device is
configured and an OUT packet is present it is acknowledged (drained) on
that very tick. -/
theorem C9_out_data_ignored (cfg recv rw : Bool) (d1 d2 : List ℕ)
    (ready : Bool) (img : ℕ → ℕ) (rst : Bool) (s : Mach) :
    HID_Task cfg recv rw d1 ready img rst s = HID_Task cfg recv rw d2 ready img rst s ∧
    (cfg = true → recv = true → (HID_Task cfg recv rw d1 ready img rst s).1 = true) := by
  constructor
  · rfl
  · intro h1 h2
    subst h1 h2
    by_cases hr : ready = true
    · subst hr; simp [HID_Task]
    · replace hr : ready = false := by
        cases ready
        · rfl
        · exact absurd rfl hr
      subst hr; simp [HID_Task]

/-- Witness for C9 with concrete differing payloads. -/
theorem C9_out_data_ignored_witness :
    HID_Task true true true [7, 7, 7] true img0 false initMach =
      HID_Task true true true [9] true img0 false initMach ∧
    (HID_Task true true true [7, 7, 7] true img0 false initMach).1 = true :=
  ⟨(C9_out_data_ignored true true true [7, 7, 7] [9] true img0 false initMach).1,
   (C9_out_data_ignored true true true [7, 7, 7] [9] true img0 false initMach).2 rfl rfl⟩

/-- C7 (amended).  In SYNC_CONTROLLER the fresh report is a deterministic
function of the tick counter: neutral on every tick except that L and R are
asserted together at the two marks ms_2_count 500 and ms_2_count 1000, and
A is asserted at the two later marks ms_2_count 1500 and ms_2_count 2000;
once the counter passes ms_2_count 2000 the machine moves to SYNC_POSITION
with the counter reset to zero. -/
theorem C7_sync_controller_schedule (img : ℕ → ℕ) (rst : Bool) (s : Mach)
    (he : s.echoes = 0) (hs : s.state = .SYNC_CONTROLLER) :
    (s.command_count ≤ ms_2_count 2000 →
      (getNextReport img rst s).1.state = .SYNC_CONTROLLER ∧
      (getNextReport img rst s).1.command_count = s.command_count + 1 ∧
      (getNextReport img rst s).2 =
        (if s.command_count = ms_2_count 500 ∨ s.command_count = ms_2_count 1000 then
          { neutralReport with Button := SWITCH_L ||| SWITCH_R }
        else if s.command_count = ms_2_count 1500 ∨ s.command_count = ms_2_count 2000 then
          { neutralReport with Button := SWITCH_A }
        else neutralReport)) ∧
    (ms_2_count 2000 < s.command_count →
      (getNextReport img rst s).1.state = .SYNC_POSITION ∧
      (getNextReport img rst s).1.command_count = 0 ∧
      (getNextReport img rst s).2 = neutralReport) := by
  obtain ⟨st, lr, e, cc, x, y⟩ := s
  simp only at he hs
  subst he hs
  constructor
  · intro hle
    simp only at hle
    have hgt : ¬ cc > ms_2_count 2000 := by omega
    by_cases h1 : cc = ms_2_count 500 ∨ cc = ms_2_count 1000
    · simp [getNextReport, hgt, h1]
      decide
    · by_cases h2 : cc = ms_2_count 1500 ∨ cc = ms_2_count 2000
      · simp [getNextReport, hgt, h1, h2]
        decide
      · simp [getNextReport, hgt, h1, h2]
  · intro hgt
    have hgt2 : cc > ms_2_count 2000 := hgt
    simp [getNextReport, hgt2]

set_option maxRecDepth 100000 in
/-- Counterexample for C7 as stated: L and R are asserted together at two
distinct schedule marks, not one.  On the real run from reset (blank image,
reset never asserted), tick 60 is the fresh tick with counter 12 and tick
125 the fresh tick with counter 25, and both emitted reports carry exactly
the L and R bits. -/
theorem C7_counterexample :
    (runFrom img0 inp0 initMach 60).state = PState.SYNC_CONTROLLER ∧
    (runFrom img0 inp0 initMach 60).echoes = 0 ∧
    (runFrom img0 inp0 initMach 60).command_count = 12 ∧
    (emitFrom img0 inp0 initMach 60).Button = (SWITCH_L ||| SWITCH_R) ∧
    (runFrom img0 inp0 initMach 125).state = PState.SYNC_CONTROLLER ∧
    (runFrom img0 inp0 initMach 125).echoes = 0 ∧
    (runFrom img0 inp0 initMach 125).command_count = 25 ∧
    (emitFrom img0 inp0 initMach 125).Button = (SWITCH_L ||| SWITCH_R) ∧
    (12 : ℕ) ≠ 25 := by
  decide

/-- Witness for C7 at the initial state (counter 0, below every mark). -/
theorem C7_sync_controller_schedule_witness :
    (getNextReport img0 false initMach).1.state = PState.SYNC_CONTROLLER ∧
    (getNextReport img0 false initMach).1.command_count = initMach.command_count + 1 ∧
    (getNextReport img0 false initMach).2 =
      (if initMach.command_count = ms_2_count 500 ∨ initMach.command_count = ms_2_count 1000 then
        { neutralReport with Button := SWITCH_L ||| SWITCH_R }
      else if initMach.command_count = ms_2_count 1500 ∨ initMach.command_count = ms_2_count 2000 then
        { neutralReport with Button := SWITCH_A }
      else neutralReport) :=
  (C7_sync_controller_schedule img0 false initMach (by decide) (by decide)).1 (by decide)

/-- C8 (amended).  A reset sampled on a fresh drawing tick sends the machine
to SYNC_POSITION on that very tick with the cursor left untouched, unless
the scan completes on the same tick (ypos past the last row), in which case
DONE takes priority; the cursor is set to (0, 0) only when the
SYNC_POSITION duration later elapses, and SYNC_POSITION leaves the cursor
unchanged until that moment. -/
theorem C8_reset_returns_to_sync_position (img : ℕ → ℕ) (rst : Bool) (s : Mach) :
    (s.echoes = 0 → s.state = .ZIG_ZAG → rst = true → s.ypos ≤ 119 →
      (getNextReport img rst s).1.state = .SYNC_POSITION ∧
      (getNextReport img rst s).1.xpos = s.xpos ∧
      (getNextReport img rst s).1.ypos = s.ypos) ∧
    (s.echoes = 0 → s.state = .SYNC_POSITION → s.command_count ≤ ms_2_count 4000 →
      (getNextReport img rst s).1.state = .SYNC_POSITION ∧
      (getNextReport img rst s).1.xpos = s.xpos ∧
      (getNextReport img rst s).1.ypos = s.ypos) ∧
    (s.echoes = 0 → s.state = .SYNC_POSITION → ms_2_count 4000 < s.command_count →
      (getNextReport img rst s).1.state = .ZIG_ZAG ∧
      (getNextReport img rst s).1.xpos = 0 ∧
      (getNextReport img rst s).1.ypos = 0 ∧
      (getNextReport img rst s).1.command_count = 0) := by
  obtain ⟨st, lr, e, cc, x, y⟩ := s
  refine ⟨?_, ?_, ?_⟩
  · intro he hs hr hy
    simp only at he hs hy ⊢
    subst he hs hr
    have hy2 : ¬ y > 119 := by omega
    simp [getNextReport, hy2]
  · intro he hs hle
    simp only at he hs hle ⊢
    subst he hs
    have hgt : ¬ cc > ms_2_count 4000 := by omega
    by_cases h1 : cc = ms_2_count 1500 ∨ cc = ms_2_count 3000 <;>
      simp [getNextReport, hgt, h1]
  · intro he hs hgt
    simp only at he hs hgt ⊢
    subst he hs
    have hgt2 : cc > ms_2_count 4000 := hgt
    by_cases hb : is_blackZ img 0 0 = true
    · simp [getNextReport, hgt2, move, hb]
      decide
    · simp only [Bool.not_eq_true] at hb
      simp [getNextReport, hgt2, move, hb]
      decide

/-- Counterexample for C8 as stated: if the reset is sampled asserted on the
very tick on which the scan also completes (cursor already past the last
row), the next state is DONE, not SYNC_POSITION. -/
theorem C8_counterexample :
    machEdge.state = PState.ZIG_ZAG ∧
    (getNextReport img0 true machEdge).1.state = PState.DONE ∧
    PState.DONE ≠ PState.SYNC_POSITION := by
  decide

/-- Witness for C8 on a mid-scan reset at cursor (3, 1). -/
theorem C8_reset_returns_to_sync_position_witness :
    (getNextReport img0 true machMid).1.state = PState.SYNC_POSITION ∧
    (getNextReport img0 true machMid).1.xpos = machMid.xpos ∧
    (getNextReport img0 true machMid).1.ypos = machMid.ypos :=
  (C8_reset_returns_to_sync_position img0 true machMid).1 (by decide) (by decide)
    rfl (by decide)

/-- Composition of tick runs under the constant-false reset stream: running
n plus k ticks is running k ticks from the state reached after n ticks. -/
theorem runFrom_inp0_add (img : ℕ → ℕ) (s : Mach) (n k : ℕ) :
    runFrom img inp0 s (n + k) = runFrom img inp0 (runFrom img inp0 s n) k := by
  induction k with
  | zero => rfl
  | succ k ih =>
    show (getNextReport img (inp0 (n + k)) (runFrom img inp0 s (n + k))).1 = _
    rw [ih]
    rfl

/-- Report with centered sticks and the given hat, as emitted while moving. -/
def hatReport (h : ℕ) : Report :=
  { Button := 0, HAT := h, LX := 128, LY := 128, RX := 128, RY := 128 }

/-- Report emitted during SYNC_POSITION with both sticks at minimum. -/
def syncPosReport : Report :=
  { Button := 0, HAT := 8, LX := 0, LY := 0, RX := 128, RY := 128 }

/-- State of the real run (blank image, no reset) after 100 ticks. -/
def mach100 : Mach := ⟨.SYNC_CONTROLLER, neutralReport, 0, 20, 0, 0⟩

/-- State of the real run after 200 ticks. -/
def mach200 : Mach := ⟨.SYNC_CONTROLLER, neutralReport, 0, 40, 0, 0⟩

/-- State of the real run after 300 ticks. -/
def mach300 : Mach := ⟨.SYNC_POSITION, syncPosReport, 0, 8, 0, 0⟩

/-- State of the real run after 400 ticks. -/
def mach400 : Mach := ⟨.SYNC_POSITION, syncPosReport, 0, 28, 0, 0⟩

/-- State of the real run after 500 ticks. -/
def mach500 : Mach := ⟨.SYNC_POSITION, syncPosReport, 0, 48, 0, 0⟩

/-- State of the real run after 600 ticks. -/
def mach600 : Mach := ⟨.SYNC_POSITION, syncPosReport, 0, 68, 0, 0⟩

/-- State of the real run after 700 ticks. -/
def mach700 : Mach := ⟨.SYNC_POSITION, syncPosReport, 0, 88, 0, 0⟩

/-- State of the real run after 771 ticks: the first drawing move (down)
has happened and the cursor sits at (0, 1). -/
def mach771 : Mach := ⟨.ZIG_ZAG, hatReport 4, 4, 1, 0, 1⟩

/-- State of the real run after 775 ticks. -/
def mach775 : Mach := ⟨.ZIG_ZAG, hatReport 4, 0, 1, 0, 1⟩

/-- State of the real run after 776 ticks: right move to (1, 1). -/
def mach776 : Mach := ⟨.ZIG_ZAG, hatReport 2, 4, 2, 1, 1⟩

/-- State of the real run after 777 ticks. -/
def mach777 : Mach := ⟨.ZIG_ZAG, hatReport 2, 3, 2, 1, 1⟩

/-- State of the real run after 781 ticks: up move to (1, 0). -/
def mach781 : Mach := ⟨.ZIG_ZAG, hatReport 0, 4, 3, 1, 0⟩

theorem runEq100 : runFrom img0 inp0 initMach 100 = mach100 := by decide

theorem runEq200 : runFrom img0 inp0 initMach 200 = mach200 := by
  have h := runFrom_inp0_add img0 initMach 100 100
  rw [runEq100] at h
  exact h.trans (by decide)

theorem runEq300 : runFrom img0 inp0 initMach 300 = mach300 := by
  have h := runFrom_inp0_add img0 initMach 200 100
  rw [runEq200] at h
  exact h.trans (by decide)

theorem runEq400 : runFrom img0 inp0 initMach 400 = mach400 := by
  have h := runFrom_inp0_add img0 initMach 300 100
  rw [runEq300] at h
  exact h.trans (by decide)

theorem runEq500 : runFrom img0 inp0 initMach 500 = mach500 := by
  have h := runFrom_inp0_add img0 initMach 400 100
  rw [runEq400] at h
  exact h.trans (by decide)

theorem runEq600 : runFrom img0 inp0 initMach 600 = mach600 := by
  have h := runFrom_inp0_add img0 initMach 500 100
  rw [runEq500] at h
  exact h.trans (by decide)

theorem runEq700 : runFrom img0 inp0 initMach 700 = mach700 := by
  have h := runFrom_inp0_add img0 initMach 600 100
  rw [runEq600] at h
  exact h.trans (by decide)

theorem runEq771 : runFrom img0 inp0 initMach 771 = mach771 := by
  have h := runFrom_inp0_add img0 initMach 700 71
  rw [runEq700] at h
  exact h.trans (by decide)

theorem runEq775 : runFrom img0 inp0 initMach 775 = mach775 := by
  have h := runFrom_inp0_add img0 initMach 700 75
  rw [runEq700] at h
  exact h.trans (by decide)

theorem runEq776 : runFrom img0 inp0 initMach 776 = mach776 := by
  have h := runFrom_inp0_add img0 initMach 700 76
  rw [runEq700] at h
  exact h.trans (by decide)

theorem runEq777 : runFrom img0 inp0 initMach 777 = mach777 := by
  have h := runFrom_inp0_add img0 initMach 700 77
  rw [runEq700] at h
  exact h.trans (by decide)

theorem runEq781 : runFrom img0 inp0 initMach 781 = mach781 := by
  have h := runFrom_inp0_add img0 initMach 700 81
  rw [runEq700] at h
  exact h.trans (by decide)

/-- Counterexample for C1 as stated: on the real run from reset (blank
image, reset never asserted) the drawing phase begins with the cursor at
(0, 0); one pattern tick later the cursor is already on row 1 at (0, 1),
long before the columns of row 0 have been visited, and row 1 - an odd row,
which the claim requires to be traversed descending - continues with the
ascending step to (1, 1); only afterwards does the cursor come back up to
row 0 at (1, 0).  So rows are interleaved in pairs, row 0 is not completed
before row 1 is entered, and odd row 1 is scanned ascending. -/
theorem C1_counterexample :
    (runFrom img0 inp0 initMach 771).state = PState.ZIG_ZAG ∧
    (runFrom img0 inp0 initMach 771).xpos = 0 ∧
    (runFrom img0 inp0 initMach 771).ypos = 1 ∧
    (runFrom img0 inp0 initMach 776).state = PState.ZIG_ZAG ∧
    (runFrom img0 inp0 initMach 776).xpos = 1 ∧
    (runFrom img0 inp0 initMach 776).ypos = 1 ∧
    (runFrom img0 inp0 initMach 781).state = PState.ZIG_ZAG ∧
    (runFrom img0 inp0 initMach 781).xpos = 1 ∧
    (runFrom img0 inp0 initMach 781).ypos = 0 := by
  rw [runEq771, runEq776, runEq781]
  decide

/-- Counterexample for C4 as stated: at the report level the hat value does
repeat identically for more than two consecutive ticks with no centered
tick between, because every fresh decision is echoed ECHOES more times.  On
the real run from reset, ticks 775, 776 and 777 all fall in the drawing
phase and all three emitted reports carry HAT_RIGHT, which is not
HAT_CENTER. -/
theorem C4_counterexample :
    (runFrom img0 inp0 initMach 775).state = PState.ZIG_ZAG ∧
    (runFrom img0 inp0 initMach 776).state = PState.ZIG_ZAG ∧
    (runFrom img0 inp0 initMach 777).state = PState.ZIG_ZAG ∧
    (emitFrom img0 inp0 initMach 775).HAT = HAT_RIGHT ∧
    (emitFrom img0 inp0 initMach 776).HAT = HAT_RIGHT ∧
    (emitFrom img0 inp0 initMach 777).HAT = HAT_RIGHT ∧
    HAT_RIGHT ≠ HAT_CENTER := by
  simp only [emitFrom]
  rw [runEq775, runEq776, runEq777]
  decide

/-- One fresh drawing step of the pattern follower: the hat and counter
update of complete_zig_zag_pattern composed with the cursor update of
GetNextReport, acting on (command_count, xpos, ypos). -/
def zstep (p : ℕ × ℤ × ℤ) : ℕ × ℤ × ℤ :=
  (zigzag_cc p.1, (move (zigzag_hat p.1 p.2.2) p.2.1 p.2.2).1,
    (move (zigzag_hat p.1 p.2.2) p.2.1 p.2.2).2)

/-- The cursor trajectory of the drawing phase on fresh ticks, started the
way SYNC_POSITION hands over: counter 0, cursor (0, 0). -/
def zrun : ℕ → ℕ × ℤ × ℤ
  | 0 => (0, 0, 0)
  | n + 1 => zstep (zrun n)

theorem zrun_succ (n : ℕ) : zrun (n + 1) = zstep (zrun n) := rfl

theorem zstep_bottom (cc : ℕ) (x y : ℤ) (h4 : cc % 4 = 0) (hle : cc ≤ 638) :
    zstep (cc, x, y) = (cc + 1, x, y + 1) := by
  have h643 : ¬ cc = 643 := by omega
  have h2 : ¬ cc % 2 = 1 := by omega
  have h639 : ¬ (cc = 639 ∨ cc = 641) := by omega
  have h640 : ¬ (cc = 640 ∨ cc = 642) := by omega
  simp [zstep, zigzag_hat, zigzag_cc, move, h643, h2, h4, h639, h640,
    HAT_BOTTOM, HAT_RIGHT, HAT_LEFT, HAT_TOP]

theorem zstep_top (cc : ℕ) (x y : ℤ) (h4 : cc % 4 = 2) (hle : cc ≤ 638) :
    zstep (cc, x, y) = (cc + 1, x, y - 1) := by
  have h643 : ¬ cc = 643 := by omega
  have h2 : ¬ cc % 2 = 1 := by omega
  have h40 : ¬ cc % 4 = 0 := by omega
  have h639 : ¬ (cc = 639 ∨ cc = 641) := by omega
  have h640 : ¬ (cc = 640 ∨ cc = 642) := by omega
  simp [zstep, zigzag_hat, zigzag_cc, move, h643, h2, h40, h639, h640,
    HAT_BOTTOM, HAT_RIGHT, HAT_LEFT, HAT_TOP]

theorem zstep_right (cc : ℕ) (x y : ℤ) (h2 : cc % 2 = 1) (hle : cc ≤ 637)
    (hy : Int.tmod y 4 < 2) :
    zstep (cc, x, y) = (cc + 1, x + 1, y) := by
  have h643 : ¬ cc = 643 := by omega
  have h639 : ¬ (cc = 639 ∨ cc = 641) := by omega
  have h640 : ¬ (cc = 640 ∨ cc = 642) := by omega
  simp [zstep, zigzag_hat, zigzag_cc, move, h643, h2, hy, h639, h640,
    HAT_BOTTOM, HAT_RIGHT, HAT_LEFT, HAT_TOP]

theorem zstep_left (cc : ℕ) (x y : ℤ) (h2 : cc % 2 = 1) (hle : cc ≤ 637)
    (hy : ¬ Int.tmod y 4 < 2) :
    zstep (cc, x, y) = (cc + 1, x - 1, y) := by
  have h643 : ¬ cc = 643 := by omega
  have h639 : ¬ (cc = 639 ∨ cc = 641) := by omega
  have h640 : ¬ (cc = 640 ∨ cc = 642) := by omega
  simp [zstep, zigzag_hat, zigzag_cc, move, h643, h2, hy, h639, h640,
    HAT_BOTTOM, HAT_RIGHT, HAT_LEFT, HAT_TOP]

theorem zstep_639 (x y : ℤ) : zstep (639, x, y) = (640, x, y + 1) := by
  simp [zstep, zigzag_hat, zigzag_cc, move,
    HAT_BOTTOM, HAT_RIGHT, HAT_LEFT, HAT_TOP]

theorem zstep_640 (x y : ℤ) : zstep (640, x, y) = (641, x, y) := by
  simp [zstep, zigzag_hat, zigzag_cc, move,
    HAT_BOTTOM, HAT_RIGHT, HAT_LEFT, HAT_TOP, HAT_CENTER]

theorem zstep_641 (x y : ℤ) : zstep (641, x, y) = (642, x, y + 1) := by
  simp [zstep, zigzag_hat, zigzag_cc, move,
    HAT_BOTTOM, HAT_RIGHT, HAT_LEFT, HAT_TOP]

theorem zstep_642 (x y : ℤ) : zstep (642, x, y) = (643, x, y) := by
  simp [zstep, zigzag_hat, zigzag_cc, move,
    HAT_BOTTOM, HAT_RIGHT, HAT_LEFT, HAT_TOP, HAT_CENTER]

theorem zstep_643 (x y : ℤ) : zstep (643, x, y) = (1, x, y + 1) := by
  simp [zstep, zigzag_hat, zigzag_cc, move,
    HAT_BOTTOM, HAT_RIGHT, HAT_LEFT, HAT_TOP]

/-- Trajectory of the first band (rows 0 and 1, scanned to the right): the
four positions produced by each group of four commands 4j+1 .. 4j+4. -/
theorem bandA : ∀ j : ℕ, j ≤ 158 →
    zrun (4 * j + 1) = (4 * j + 1, ((2 * j : ℤ), (1 : ℤ))) ∧
    zrun (4 * j + 2) = (4 * j + 2, ((2 * j + 1 : ℤ), (1 : ℤ))) ∧
    zrun (4 * j + 3) = (4 * j + 3, ((2 * j + 1 : ℤ), (0 : ℤ))) ∧
    zrun (4 * j + 4) = (4 * j + 4, ((2 * j + 2 : ℤ), (0 : ℤ))) := by
  intro j
  induction j with
  | zero =>
    intro _
    exact ⟨by decide, by decide, by decide, by decide⟩
  | succ j ih =>
    intro hj
    obtain ⟨h1, h2, h3, h4⟩ := ih (by omega)
    have s1 : zrun (4 * j + 5) = (4 * j + 5, ((2 * j + 2 : ℤ), (1 : ℤ))) := by
      have e : 4 * j + 5 = (4 * j + 4) + 1 := by ring
      rw [e, zrun_succ, h4, zstep_bottom (4 * j + 4) _ _ (by omega) (by omega)]
      norm_num
    have s2 : zrun (4 * j + 6) = (4 * j + 6, ((2 * j + 3 : ℤ), (1 : ℤ))) := by
      have e : 4 * j + 6 = (4 * j + 5) + 1 := by ring
      rw [e, zrun_succ, s1, zstep_right (4 * j + 5) _ _ (by omega) (by omega) (by decide)]
      norm_num
      ring
    have s3 : zrun (4 * j + 7) = (4 * j + 7, ((2 * j + 3 : ℤ), (0 : ℤ))) := by
      have e : 4 * j + 7 = (4 * j + 6) + 1 := by ring
      rw [e, zrun_succ, s2, zstep_top (4 * j + 6) _ _ (by omega) (by omega)]
      norm_num
    have s4 : zrun (4 * j + 8) = (4 * j + 8, ((2 * j + 4 : ℤ), (0 : ℤ))) := by
      have e : 4 * j + 8 = (4 * j + 7) + 1 := by ring
      rw [e, zrun_succ, s3, zstep_right (4 * j + 7) _ _ (by omega) (by omega) (by decide)]
      norm_num
      ring
    refine ⟨?_, ?_, ?_, ?_⟩
    · have e : 4 * (j + 1) + 1 = 4 * j + 5 := by ring
      rw [e, s1]
      simp only [Prod.mk.injEq, true_and, and_true]
      push_cast
      ring
    · have e : 4 * (j + 1) + 2 = 4 * j + 6 := by ring
      rw [e, s2]
      simp only [Prod.mk.injEq, true_and, and_true]
      push_cast
      ring
    · have e : 4 * (j + 1) + 3 = 4 * j + 7 := by ring
      rw [e, s3]
      simp only [Prod.mk.injEq, true_and, and_true]
      push_cast
      ring
    · have e : 4 * (j + 1) + 4 = 4 * j + 8 := by ring
      rw [e, s4]
      simp only [Prod.mk.injEq, true_and, and_true]
      push_cast
      ring

theorem zrunEq1 : zrun 1 = (1, ((0 : ℤ), (1 : ℤ))) := by decide

/-- Position after command 636, from the last group of band A. -/
theorem zrunEq636 : zrun 636 = (636, ((318 : ℤ), (0 : ℤ))) := by
  have h := (bandA 158 (by norm_num)).2.2.2
  norm_num at h
  exact h

theorem zrunEq637 : zrun 637 = (637, ((318 : ℤ), (1 : ℤ))) := by
  have h : zrun 637 = zstep (636, ((318 : ℤ), (0 : ℤ))) := by
    rw [show (637 : ℕ) = 636 + 1 from rfl, zrun_succ, zrunEq636]
  rw [h, zstep_bottom 636 _ _ (by norm_num) (by norm_num)] <;> decide

theorem zrunEq638 : zrun 638 = (638, ((319 : ℤ), (1 : ℤ))) := by
  have h : zrun 638 = zstep (637, ((318 : ℤ), (1 : ℤ))) := by
    rw [show (638 : ℕ) = 637 + 1 from rfl, zrun_succ, zrunEq637]
  rw [h, zstep_right 637 _ _ (by norm_num) (by norm_num) (by decide)] <;> decide

theorem zrunEq639 : zrun 639 = (639, ((319 : ℤ), (0 : ℤ))) := by
  have h : zrun 639 = zstep (638, ((319 : ℤ), (1 : ℤ))) := by
    rw [show (639 : ℕ) = 638 + 1 from rfl, zrun_succ, zrunEq638]
  rw [h, zstep_top 638 _ _ (by norm_num) (by norm_num)] <;> decide

theorem zrunEq640 : zrun 640 = (640, ((319 : ℤ), (1 : ℤ))) := by
  have h : zrun 640 = zstep (639, ((319 : ℤ), (0 : ℤ))) := by
    rw [show (640 : ℕ) = 639 + 1 from rfl, zrun_succ, zrunEq639]
  rw [h, zstep_639 _ _] <;> decide

theorem zrunEq641 : zrun 641 = (641, ((319 : ℤ), (1 : ℤ))) := by
  have h : zrun 641 = zstep (640, ((319 : ℤ), (1 : ℤ))) := by
    rw [show (641 : ℕ) = 640 + 1 from rfl, zrun_succ, zrunEq640]
  rw [h, zstep_640 _ _] <;> decide

theorem zrunEq642 : zrun 642 = (642, ((319 : ℤ), (2 : ℤ))) := by
  have h : zrun 642 = zstep (641, ((319 : ℤ), (1 : ℤ))) := by
    rw [show (642 : ℕ) = 641 + 1 from rfl, zrun_succ, zrunEq641]
  rw [h, zstep_641 _ _] <;> decide

theorem zrunEq643 : zrun 643 = (643, ((319 : ℤ), (2 : ℤ))) := by
  have h : zrun 643 = zstep (642, ((319 : ℤ), (2 : ℤ))) := by
    rw [show (643 : ℕ) = 642 + 1 from rfl, zrun_succ, zrunEq642]
  rw [h, zstep_642 _ _] <;> decide

theorem zrunEq644 : zrun 644 = (1, ((319 : ℤ), (3 : ℤ))) := by
  have h : zrun 644 = zstep (643, ((319 : ℤ), (2 : ℤ))) := by
    rw [show (644 : ℕ) = 643 + 1 from rfl, zrun_succ, zrunEq643]
  rw [h, zstep_643 _ _] <;> decide

/-- Trajectory of the second band (rows 2 and 3, scanned to the left). -/
theorem bandB : ∀ j : ℕ, j ≤ 158 →
    zrun (644 + 4 * j) = (4 * j + 1, ((319 - 2 * j : ℤ), (3 : ℤ))) ∧
    zrun (645 + 4 * j) = (4 * j + 2, ((318 - 2 * j : ℤ), (3 : ℤ))) ∧
    zrun (646 + 4 * j) = (4 * j + 3, ((318 - 2 * j : ℤ), (2 : ℤ))) ∧
    zrun (647 + 4 * j) = (4 * j + 4, ((317 - 2 * j : ℤ), (2 : ℤ))) := by
  intro j
  induction j with
  | zero =>
    intro _
    have h645 : zrun 645 = (2, ((318 : ℤ), (3 : ℤ))) := by
      have h : zrun 645 = zstep (1, ((319 : ℤ), (3 : ℤ))) := by
        rw [show (645 : ℕ) = 644 + 1 from rfl, zrun_succ, zrunEq644]
      rw [h, zstep_left 1 _ _ (by norm_num) (by norm_num) (by decide)] <;> decide
    have h646 : zrun 646 = (3, ((318 : ℤ), (2 : ℤ))) := by
      have h : zrun 646 = zstep (2, ((318 : ℤ), (3 : ℤ))) := by
        rw [show (646 : ℕ) = 645 + 1 from rfl, zrun_succ, h645]
      rw [h, zstep_top 2 _ _ (by norm_num) (by norm_num)] <;> decide
    have h647 : zrun 647 = (4, ((317 : ℤ), (2 : ℤ))) := by
      have h : zrun 647 = zstep (3, ((318 : ℤ), (2 : ℤ))) := by
        rw [show (647 : ℕ) = 646 + 1 from rfl, zrun_succ, h646]
      rw [h, zstep_left 3 _ _ (by norm_num) (by norm_num) (by decide)] <;> decide
    refine ⟨?_, ?_, ?_, ?_⟩
    · rw [show 644 + 4 * 0 = 644 from rfl, zrunEq644] <;> decide
    · rw [show 645 + 4 * 0 = 645 from rfl, h645] <;> decide
    · rw [show 646 + 4 * 0 = 646 from rfl, h646] <;> decide
    · rw [show 647 + 4 * 0 = 647 from rfl, h647] <;> decide
  | succ j ih =>
    intro hj
    obtain ⟨h1, h2, h3, h4⟩ := ih (by omega)
    have s1 : zrun (648 + 4 * j) = (4 * j + 5, ((317 - 2 * j : ℤ), (3 : ℤ))) := by
      have e : 648 + 4 * j = (647 + 4 * j) + 1 := by ring
      rw [e, zrun_succ, h4, zstep_bottom (4 * j + 4) _ _ (by omega) (by omega)]
      simp only [Prod.mk.injEq, true_and, and_true] <;> omega
    have s2 : zrun (649 + 4 * j) = (4 * j + 6, ((316 - 2 * j : ℤ), (3 : ℤ))) := by
      have e : 649 + 4 * j = (648 + 4 * j) + 1 := by ring
      rw [e, zrun_succ, s1, zstep_left (4 * j + 5) _ _ (by omega) (by omega) (by decide)]
      simp only [Prod.mk.injEq, true_and, and_true] <;> omega
    have s3 : zrun (650 + 4 * j) = (4 * j + 7, ((316 - 2 * j : ℤ), (2 : ℤ))) := by
      have e : 650 + 4 * j = (649 + 4 * j) + 1 := by ring
      rw [e, zrun_succ, s2, zstep_top (4 * j + 6) _ _ (by omega) (by omega)]
      simp only [Prod.mk.injEq, true_and, and_true] <;> omega
    have s4 : zrun (651 + 4 * j) = (4 * j + 8, ((315 - 2 * j : ℤ), (2 : ℤ))) := by
      have e : 651 + 4 * j = (650 + 4 * j) + 1 := by ring
      rw [e, zrun_succ, s3, zstep_left (4 * j + 7) _ _ (by omega) (by omega) (by decide)]
      simp only [Prod.mk.injEq, true_and, and_true] <;> omega
    refine ⟨?_, ?_, ?_, ?_⟩
    · have e : 644 + 4 * (j + 1) = 648 + 4 * j := by ring
      rw [e, s1]
      simp only [Prod.mk.injEq, true_and, and_true] <;> omega
    · have e : 645 + 4 * (j + 1) = 649 + 4 * j := by ring
      rw [e, s2]
      simp only [Prod.mk.injEq, true_and, and_true] <;> omega
    · have e : 646 + 4 * (j + 1) = 650 + 4 * j := by ring
      rw [e, s3]
      simp only [Prod.mk.injEq, true_and, and_true] <;> omega
    · have e : 647 + 4 * (j + 1) = 651 + 4 * j := by ring
      rw [e, s4]
      simp only [Prod.mk.injEq, true_and, and_true] <;> omega

/-- Position after command 1279, from the last group of band B. -/
theorem zrunEq1279 : zrun 1279 = (636, ((1 : ℤ), (2 : ℤ))) := by
  have h := (bandB 158 (by norm_num)).2.2.2
  norm_num at h
  exact h

theorem zrunEq1280 : zrun 1280 = (637, ((1 : ℤ), (3 : ℤ))) := by
  have h : zrun 1280 = zstep (636, ((1 : ℤ), (2 : ℤ))) := by
    rw [show (1280 : ℕ) = 1279 + 1 from rfl, zrun_succ, zrunEq1279]
  rw [h, zstep_bottom 636 _ _ (by norm_num) (by norm_num)] <;> decide

theorem zrunEq1281 : zrun 1281 = (638, ((0 : ℤ), (3 : ℤ))) := by
  have h : zrun 1281 = zstep (637, ((1 : ℤ), (3 : ℤ))) := by
    rw [show (1281 : ℕ) = 1280 + 1 from rfl, zrun_succ, zrunEq1280]
  rw [h, zstep_left 637 _ _ (by norm_num) (by norm_num) (by decide)] <;> decide

theorem zrunEq1282 : zrun 1282 = (639, ((0 : ℤ), (2 : ℤ))) := by
  have h : zrun 1282 = zstep (638, ((0 : ℤ), (3 : ℤ))) := by
    rw [show (1282 : ℕ) = 1281 + 1 from rfl, zrun_succ, zrunEq1281]
  rw [h, zstep_top 638 _ _ (by norm_num) (by norm_num)] <;> decide

theorem zrunEq1283 : zrun 1283 = (640, ((0 : ℤ), (3 : ℤ))) := by
  have h : zrun 1283 = zstep (639, ((0 : ℤ), (2 : ℤ))) := by
    rw [show (1283 : ℕ) = 1282 + 1 from rfl, zrun_succ, zrunEq1282]
  rw [h, zstep_639 _ _] <;> decide

theorem zrunEq1284 : zrun 1284 = (641, ((0 : ℤ), (3 : ℤ))) := by
  have h : zrun 1284 = zstep (640, ((0 : ℤ), (3 : ℤ))) := by
    rw [show (1284 : ℕ) = 1283 + 1 from rfl, zrun_succ, zrunEq1283]
  rw [h, zstep_640 _ _] <;> decide

theorem zrunEq1285 : zrun 1285 = (642, ((0 : ℤ), (4 : ℤ))) := by
  have h : zrun 1285 = zstep (641, ((0 : ℤ), (3 : ℤ))) := by
    rw [show (1285 : ℕ) = 1284 + 1 from rfl, zrun_succ, zrunEq1284]
  rw [h, zstep_641 _ _] <;> decide

theorem zrunEq1286 : zrun 1286 = (643, ((0 : ℤ), (4 : ℤ))) := by
  have h : zrun 1286 = zstep (642, ((0 : ℤ), (4 : ℤ))) := by
    rw [show (1286 : ℕ) = 1285 + 1 from rfl, zrun_succ, zrunEq1285]
  rw [h, zstep_642 _ _] <;> decide

theorem zrunEq1287 : zrun 1287 = (1, ((0 : ℤ), (5 : ℤ))) := by
  have h : zrun 1287 = zstep (643, ((0 : ℤ), (4 : ℤ))) := by
    rw [show (1287 : ℕ) = 1286 + 1 from rfl, zrun_succ, zrunEq1286]
  rw [h, zstep_643 _ _] <;> decide

/-- Height of the zig-zag cursor above the base row of its current band, as
a function of the wrap-normalized entering command count. -/
def ydisp (c : ℕ) : ℕ :=
  if c = 0 then 0
  else if c ≤ 639 then (if c % 4 = 1 ∨ c % 4 = 2 then 1 else 0)
  else if c ≤ 641 then 1
  else 2

/-- Signed vertical displacement performed by the command issued at
wrap-normalized count c. -/
def vshift (c : ℕ) : ℤ :=
  if c = 639 ∨ c = 641 then 1
  else if c = 640 ∨ c = 642 then 0
  else if c % 2 = 1 then 0
  else if c % 4 = 0 then 1
  else -1

theorem zigzag_hat_norm (cc : ℕ) (y : ℤ) :
    zigzag_hat cc y = zigzag_hat (if cc = 643 then 0 else cc) y := by
  by_cases h : cc = 643 <;> simp [zigzag_hat, h]

theorem move_y_vshift (c : ℕ) (x y : ℤ) (hc : c ≤ 642) :
    (move (zigzag_hat c y) x y).2 = y + vshift c := by
  have h643 : ¬ c = 643 := by omega
  simp only [zigzag_hat, vshift, move, if_neg h643]
  split_ifs <;>
    simp_all [HAT_RIGHT, HAT_LEFT, HAT_TOP, HAT_BOTTOM, HAT_CENTER] <;> ring

theorem ydisp_step : ∀ c : ℕ, c < 642 → (ydisp c : ℤ) + vshift c = ydisp (c + 1) := by
  decide

/-- Reachability invariant of the zig-zag trajectory: the counter stays in
[0, 643] and the row is the band base 2k plus the tabled height. -/
def PInv (p : ℕ × ℤ × ℤ) : Prop :=
  p.1 ≤ 643 ∧ ∃ k : ℕ, p.2.2 = 2 * k + ydisp (if p.1 = 643 then 0 else p.1)

theorem pinv_zstep (p : ℕ × ℤ × ℤ) (h : PInv p) : PInv (zstep p) := by
  obtain ⟨cc, x, y⟩ := p
  obtain ⟨hcc, k, hk⟩ := h
  simp only at hcc hk
  rcases eq_or_ne cc 643 with h643 | h643
  · subst h643
    rw [zstep_643]
    refine ⟨by norm_num, k, ?_⟩
    norm_num at hk
    have h0 : ydisp 0 = 0 := by decide
    rw [h0] at hk
    have h1 : ydisp 1 = 1 := by decide
    show y + 1 = 2 * k + ydisp (if 1 = 643 then 0 else 1)
    rw [if_neg (by norm_num), h1]
    omega
  · have hle : cc ≤ 642 := by omega
    rw [if_neg h643] at hk
    have hccnew : (zstep (cc, x, y)).1 = cc + 1 := by
      simp [zstep, zigzag_cc, h643]
    have hynew : (zstep (cc, x, y)).2.2 = y + vshift cc := by
      simp only [zstep]
      rw [zigzag_hat_norm, if_neg h643]
      exact move_y_vshift cc x y hle
    refine ⟨by rw [hccnew]; omega, ?_⟩
    rcases eq_or_ne cc 642 with h642 | h642
    · subst h642
      refine ⟨k + 1, ?_⟩
      rw [hynew, hccnew]
      have hv : vshift 642 = 0 := by decide
      have hy2 : ydisp 642 = 2 := by decide
      have hy0 : ydisp 0 = 0 := by decide
      rw [hv, if_pos (by norm_num), hy0]
      rw [hy2] at hk
      omega
    · refine ⟨k, ?_⟩
      rw [hynew, hccnew, if_neg (by omega)]
      have hstep := ydisp_step cc (by omega)
      omega

theorem pinv_zrun : ∀ n : ℕ, PInv (zrun n) := by
  intro n
  induction n with
  | zero => exact ⟨by decide, 0, by decide⟩
  | succ n ih =>
    rw [zrun_succ]
    exact pinv_zstep _ ih

theorem zrun_y_nonneg (n : ℕ) : 0 ≤ (zrun n).2.2 := by
  obtain ⟨-, k, hk⟩ := pinv_zrun n
  rw [hk]
  positivity

theorem zigzag_hat_shift (cc : ℕ) (y : ℤ) (hy : 0 ≤ y) :
    zigzag_hat cc (y + 4) = zigzag_hat cc y := by
  have ht : Int.tmod (y + 4) 4 = Int.tmod y 4 := by
    rw [Int.tmod_eq_emod (by omega) (by norm_num), Int.tmod_eq_emod hy (by norm_num)]
    omega
  simp [zigzag_hat, ht]

theorem zstep_shift (cc : ℕ) (x y : ℤ) (hy : 0 ≤ y) :
    zstep (cc, x, y + 4) =
      ((zstep (cc, x, y)).1, ((zstep (cc, x, y)).2.1, (zstep (cc, x, y)).2.2 + 4)) := by
  simp only [zstep, zigzag_hat_shift cc y hy]
  unfold move
  split_ifs <;> simp [Prod.mk.injEq] <;> ring

theorem zrun_shift : ∀ n : ℕ, zrun (1287 + n) =
    ((zrun (1 + n)).1, ((zrun (1 + n)).2.1, (zrun (1 + n)).2.2 + 4)) := by
  intro n
  induction n with
  | zero =>
    rw [show (1287 + 0 : ℕ) = 1287 from rfl, zrunEq1287,
      show (1 + 0 : ℕ) = 1 from rfl, zrunEq1]
    decide
  | succ n ih =>
    have e1 : 1287 + (n + 1) = (1287 + n) + 1 := by ring
    rw [e1, zrun_succ, ih]
    rw [zstep_shift (zrun (1 + n)).1 (zrun (1 + n)).2.1 (zrun (1 + n)).2.2
      (zrun_y_nonneg (1 + n))]
    have e2 : 1 + (n + 1) = (1 + n) + 1 := by ring
    rw [e2, zrun_succ]

theorem zrun_pos_period (n : ℕ) :
    (zrun (n + 1286)).2.1 = (zrun n).2.1 ∧
    (zrun (n + 1286)).2.2 = (zrun n).2.2 + 4 := by
  cases n with
  | zero =>
    rw [show (0 + 1286 : ℕ) = 1286 from rfl, zrunEq1286]
    exact ⟨by decide, by decide⟩
  | succ m =>
    have e : m + 1 + 1286 = 1287 + m := by ring
    have e2 : (1 + m : ℕ) = m + 1 := by ring
    rw [e, zrun_shift m, e2]
    exact ⟨rfl, rfl⟩

theorem zrun_comps {n : ℕ} {a : ℕ} {b c : ℤ} (h : zrun n = (a, (b, c))) :
    (zrun n).2.1 = b ∧ (zrun n).2.2 = c := by
  rw [h]
  exact ⟨rfl, rfl⟩

/-- Every column of each of the four rows 0..3 is visited by the zig-zag
trajectory. -/
theorem cover4 : ∀ c : ℕ, c < 320 → ∀ ρ : ℕ, ρ < 4 →
    ∃ n : ℕ, (zrun n).2.1 = (c : ℤ) ∧ (zrun n).2.2 = (ρ : ℤ) := by
  intro c hc ρ hρ
  interval_cases ρ
  · rcases eq_or_ne c 0 with h0 | h0
    · exact ⟨0, by rw [h0] <;> decide, by decide⟩
    · rcases eq_or_ne c 319 with h319 | h319
      · obtain ⟨hx, hy⟩ := zrun_comps zrunEq639
        exact ⟨639, by rw [hx, h319] <;> norm_num, by rw [hy] <;> norm_num⟩
      · rcases Nat.even_or_odd c with ⟨j, hj⟩ | ⟨j, hj⟩
        · obtain ⟨hx, hy⟩ := zrun_comps ((bandA (j - 1) (by omega)).2.2.2)
          refine ⟨4 * (j - 1) + 4, ?_, ?_⟩
          · rw [hx]; omega
          · rw [hy] <;> norm_num
        · obtain ⟨hx, hy⟩ := zrun_comps ((bandA j (by omega)).2.2.1)
          refine ⟨4 * j + 3, ?_, ?_⟩
          · rw [hx]; omega
          · rw [hy] <;> norm_num
  · rcases eq_or_ne c 318 with h318 | h318
    · obtain ⟨hx, hy⟩ := zrun_comps zrunEq637
      exact ⟨637, by rw [hx, h318] <;> norm_num, by rw [hy] <;> norm_num⟩
    · rcases eq_or_ne c 319 with h319 | h319
      · obtain ⟨hx, hy⟩ := zrun_comps zrunEq638
        exact ⟨638, by rw [hx, h319] <;> norm_num, by rw [hy] <;> norm_num⟩
      · rcases Nat.even_or_odd c with ⟨j, hj⟩ | ⟨j, hj⟩
        · obtain ⟨hx, hy⟩ := zrun_comps ((bandA j (by omega)).1)
          refine ⟨4 * j + 1, ?_, ?_⟩
          · rw [hx]; omega
          · rw [hy] <;> norm_num
        · obtain ⟨hx, hy⟩ := zrun_comps ((bandA j (by omega)).2.1)
          refine ⟨4 * j + 2, ?_, ?_⟩
          · rw [hx]; omega
          · rw [hy] <;> norm_num
  · rcases eq_or_ne c 0 with h0 | h0
    · obtain ⟨hx, hy⟩ := zrun_comps zrunEq1282
      exact ⟨1282, by rw [hx, h0] <;> norm_num, by rw [hy] <;> norm_num⟩
    · rcases eq_or_ne c 319 with h319 | h319
      · obtain ⟨hx, hy⟩ := zrun_comps zrunEq642
        exact ⟨642, by rw [hx, h319] <;> norm_num, by rw [hy] <;> norm_num⟩
      · rcases Nat.even_or_odd c with ⟨j, hj⟩ | ⟨j, hj⟩
        · obtain ⟨hx, hy⟩ := zrun_comps ((bandB ((318 - c) / 2) (by omega)).2.2.1)
          refine ⟨646 + 4 * ((318 - c) / 2), ?_, ?_⟩
          · rw [hx]; omega
          · rw [hy] <;> norm_num
        · obtain ⟨hx, hy⟩ := zrun_comps ((bandB ((317 - c) / 2) (by omega)).2.2.2)
          refine ⟨647 + 4 * ((317 - c) / 2), ?_, ?_⟩
          · rw [hx]; omega
          · rw [hy] <;> norm_num
  · rcases eq_or_ne c 0 with h0 | h0
    · obtain ⟨hx, hy⟩ := zrun_comps zrunEq1281
      exact ⟨1281, by rw [hx, h0] <;> norm_num, by rw [hy] <;> norm_num⟩
    · rcases eq_or_ne c 1 with h1 | h1
      · obtain ⟨hx, hy⟩ := zrun_comps zrunEq1280
        exact ⟨1280, by rw [hx, h1] <;> norm_num, by rw [hy] <;> norm_num⟩
      · rcases Nat.even_or_odd c with ⟨j, hj⟩ | ⟨j, hj⟩
        · obtain ⟨hx, hy⟩ := zrun_comps ((bandB ((318 - c) / 2) (by omega)).2.1)
          refine ⟨645 + 4 * ((318 - c) / 2), ?_, ?_⟩
          · rw [hx]; omega
          · rw [hy] <;> norm_num
        · obtain ⟨hx, hy⟩ := zrun_comps ((bandB ((319 - c) / 2) (by omega)).1)
          refine ⟨644 + 4 * ((319 - c) / 2), ?_, ?_⟩
          · rw [hx]; omega
          · rw [hy] <;> norm_num

theorem cover_shift : ∀ q : ℕ, ∀ c : ℕ, c < 320 → ∀ ρ : ℕ, ρ < 4 →
    ∃ n : ℕ, (zrun n).2.1 = (c : ℤ) ∧ (zrun n).2.2 = (ρ : ℤ) + 4 * (q : ℤ) := by
  intro q
  induction q with
  | zero =>
    intro c hc ρ hρ
    obtain ⟨n, h1, h2⟩ := cover4 c hc ρ hρ
    refine ⟨n, h1, ?_⟩
    rw [h2]
    push_cast
    ring
  | succ q ih =>
    intro c hc ρ hρ
    obtain ⟨n, h1, h2⟩ := ih c hc ρ hρ
    refine ⟨n + 1286, ?_, ?_⟩
    · rw [(zrun_pos_period n).1, h1]
    · rw [(zrun_pos_period n).2, h2]
      push_cast
      ring

theorem hat_dir (cc : ℕ) (y : ℤ) :
    (zigzag_hat cc y = HAT_RIGHT → Int.tmod y 4 < 2) ∧
    (zigzag_hat cc y = HAT_LEFT → ¬ Int.tmod y 4 < 2) := by
  constructor <;> intro h <;> simp only [zigzag_hat] at h <;> split_ifs at h <;>
    simp_all [HAT_RIGHT, HAT_LEFT, HAT_TOP, HAT_BOTTOM, HAT_CENTER]

/-- C1 (amended).  The drawing phase rasterizes the bitmap in bands of two
rows that are interleaved rather than completed one at a time: the cursor
trajectory started from (0, 0) visits every coordinate (c, r) of the 320 by
120 canvas at least once (edge columns more than once, as the
counterexample shows), and a horizontal move goes right exactly when
ypos % 4 < 2 and left exactly when ypos % 4 >= 2, so the horizontal
direction alternates per two-row band, not per row. -/
theorem C1_band_coverage_and_direction :
    (∀ r : ℕ, r < 120 → ∀ c : ℕ, c < 320 →
      ∃ n : ℕ, (zrun n).2.1 = (c : ℤ) ∧ (zrun n).2.2 = (r : ℤ)) ∧
    (∀ (cc : ℕ) (y : ℤ),
      (zigzag_hat cc y = HAT_RIGHT → Int.tmod y 4 < 2) ∧
      (zigzag_hat cc y = HAT_LEFT → ¬ Int.tmod y 4 < 2)) := by
  constructor
  · intro r hr c hc
    obtain ⟨n, h1, h2⟩ := cover_shift (r / 4) c hc (r % 4) (by omega)
    refine ⟨n, h1, ?_⟩
    rw [h2]
    omega
  · exact hat_dir

/-- Witness for C1: column 7 of row 5 is reached, and a right move is
possible only on rows with remainder below 2. -/
theorem C1_band_coverage_and_direction_witness :
    (∃ n : ℕ, (zrun n).2.1 = ((7 : ℕ) : ℤ) ∧ (zrun n).2.2 = ((5 : ℕ) : ℤ)) ∧
    Int.tmod 1 4 < 2 :=
  ⟨C1_band_coverage_and_direction.1 5 (by norm_num) 7 (by norm_num),
   (C1_band_coverage_and_direction.2 3 1).1 (by decide)⟩

theorem hat_mod4_0 (c : ℕ) (h4 : c % 4 = 0) (hle : c ≤ 638) (y : ℤ) :
    zigzag_hat c y = HAT_BOTTOM := by
  have h643 : ¬ c = 643 := by omega
  have h2 : ¬ c % 2 = 1 := by omega
  have h639 : ¬ (c = 639 ∨ c = 641) := by omega
  have h640 : ¬ (c = 640 ∨ c = 642) := by omega
  simp [zigzag_hat, h643, h2, h4, h639, h640]

theorem hat_mod4_2 (c : ℕ) (h4 : c % 4 = 2) (hle : c ≤ 638) (y : ℤ) :
    zigzag_hat c y = HAT_TOP := by
  have h643 : ¬ c = 643 := by omega
  have h2 : ¬ c % 2 = 1 := by omega
  have h40 : ¬ c % 4 = 0 := by omega
  have h639 : ¬ (c = 639 ∨ c = 641) := by omega
  have h640 : ¬ (c = 640 ∨ c = 642) := by omega
  simp [zigzag_hat, h643, h2, h40, h4, h639, h640]

theorem hat_odd_cases (c : ℕ) (h2 : c % 2 = 1) (hle : c ≤ 637) (y : ℤ) :
    zigzag_hat c y = HAT_RIGHT ∨ zigzag_hat c y = HAT_LEFT := by
  have h643 : ¬ c = 643 := by omega
  have h639 : ¬ (c = 639 ∨ c = 641) := by omega
  have h640 : ¬ (c = 640 ∨ c = 642) := by omega
  by_cases hy : Int.tmod y 4 < 2
  · left
    simp [zigzag_hat, h643, h2, h639, h640, hy]
  · right
    simp [zigzag_hat, h643, h2, h639, h640, hy]

theorem hat_639 (y : ℤ) : zigzag_hat 639 y = HAT_BOTTOM := by
  simp [zigzag_hat]

theorem hat_640 (y : ℤ) : zigzag_hat 640 y = HAT_CENTER := by
  simp [zigzag_hat]

theorem hat_641 (y : ℤ) : zigzag_hat 641 y = HAT_BOTTOM := by
  simp [zigzag_hat]

theorem hat_642 (y : ℤ) : zigzag_hat 642 y = HAT_CENTER := by
  simp [zigzag_hat]

theorem hat_643 (y : ℤ) : zigzag_hat 643 y = HAT_BOTTOM := by
  simp [zigzag_hat]

/-- Two consecutive fresh zig-zag decisions never produce the same hat. -/
theorem hat_next_ne (cc : ℕ) (x y : ℤ) (hcc : cc ≤ 643) :
    zigzag_hat (zigzag_cc cc) ((move (zigzag_hat cc y) x y).2) ≠ zigzag_hat cc y := by
  rcases eq_or_ne cc 643 with h | h
  · subst h
    rw [hat_643, show zigzag_cc 643 = 1 from rfl]
    rcases hat_odd_cases 1 (by norm_num) (by norm_num)
        ((move HAT_BOTTOM x y).2) with h1 | h1 <;> rw [h1] <;> decide
  · have hcc1 : zigzag_cc cc = cc + 1 := by simp [zigzag_cc, h]
    rw [hcc1]
    by_cases h639 : cc = 639
    · subst h639
      rw [hat_639, hat_640]
      decide
    · by_cases h640 : cc = 640
      · subst h640
        rw [hat_640, hat_641]
        decide
      · by_cases h641 : cc = 641
        · subst h641
          rw [hat_641, hat_642]
          decide
        · by_cases h642 : cc = 642
          · subst h642
            rw [hat_642, hat_643]
            decide
          · have hle : cc ≤ 638 := by omega
            rcases Nat.even_or_odd cc with he | ho
            · have h2 : cc % 2 = 0 := Nat.even_iff.mp he
              by_cases h4 : cc % 4 = 0
              · rw [hat_mod4_0 cc h4 hle]
                rcases hat_odd_cases (cc + 1) (by omega) (by omega)
                    ((move HAT_BOTTOM x y).2) with h1 | h1 <;> rw [h1] <;> decide
              · have h42 : cc % 4 = 2 := by omega
                rw [hat_mod4_2 cc h42 hle]
                by_cases h638 : cc = 638
                · subst h638
                  rw [show (638 + 1 : ℕ) = 639 from rfl, hat_639]
                  decide
                · rcases hat_odd_cases (cc + 1) (by omega) (by omega)
                      ((move HAT_TOP x y).2) with h1 | h1 <;> rw [h1] <;> decide
            · have h2 : cc % 2 = 1 := Nat.odd_iff.mp ho
              have hle7 : cc ≤ 637 := by omega
              rcases hat_odd_cases cc h2 hle7 y with h1 | h1 <;> rw [h1]
              · by_cases h4 : (cc + 1) % 4 = 0
                · rw [hat_mod4_0 (cc + 1) h4 (by omega)]
                  decide
                · rw [hat_mod4_2 (cc + 1) (by omega) (by omega)]
                  decide
              · by_cases h4 : (cc + 1) % 4 = 0
                · rw [hat_mod4_0 (cc + 1) h4 (by omega)]
                  decide
                · rw [hat_mod4_2 (cc + 1) (by omega) (by omega)]
                  decide

/-- C4 (amended).  At the level of fresh Synthesizer decisions the rule
holds in a strong form: two consecutive fresh zig-zag decisions never carry
the same hat value at all, so in particular the two same-direction moves of
the band tail (counts 639 and 641) are separated by the centered decision
at count 640.  At the emitted-report level the property fails only because
every fresh decision is resent ECHOES more times, as the counterexample
shows. -/
theorem C4_fresh_decisions_never_repeat (cc : ℕ) (x y : ℤ) (hcc : cc ≤ 643) :
    zigzag_hat (zigzag_cc cc) ((move (zigzag_hat cc y) x y).2) ≠ zigzag_hat cc y :=
  hat_next_ne cc x y hcc

/-- Witness for C4 at the first drawing command: the down move at count 0
is followed by a horizontal move, not another down move. -/
theorem C4_fresh_decisions_never_repeat_witness :
    zigzag_hat (zigzag_cc 0) ((move (zigzag_hat 0 0) 0 0).2) ≠ zigzag_hat 0 0 :=
  C4_fresh_decisions_never_repeat 0 0 0 (by norm_num)

/-- Run invariant of the printer machine: in ZIG_ZAG the counter is in
[0, 643] and ypos sits at the tabled height above an even band base below
row 118; in DONE the latched last_report is the neutral report. -/
def MInv (s : Mach) : Prop :=
  (s.state = .ZIG_ZAG → s.command_count ≤ 643 ∧
    ∃ k : ℕ, k ≤ 59 ∧
      s.ypos = 2 * k + ydisp (if s.command_count = 643 then 0 else s.command_count)) ∧
  (s.state = .DONE → s.last_report = neutralReport)

theorem inv_of_state_other (t : Mach) (h1 : t.state ≠ .ZIG_ZAG)
    (h2 : t.state ≠ .DONE) : MInv t :=
  ⟨fun h => absurd h h1, fun h => absurd h h2⟩

theorem inv_of_components (t : Mach) (hst : t.state = .ZIG_ZAG)
    (hcc : t.command_count ≤ 643)
    (hex : ∃ k : ℕ, k ≤ 59 ∧
      t.ypos = 2 * k + ydisp (if t.command_count = 643 then 0 else t.command_count)) :
    MInv t := by
  refine ⟨fun _ => ⟨hcc, hex⟩, fun hd => ?_⟩
  rw [hst] at hd
  exact absurd hd (by decide)

/-- One in-drawing step preserves the counter and height invariant as long
as the scan has not completed. -/
theorem zig_inv_step (cc : ℕ) (x y : ℤ) (hcc : cc ≤ 643)
    (hex : ∃ k : ℕ, k ≤ 59 ∧ y = 2 * k + ydisp (if cc = 643 then 0 else cc))
    (hy : ¬ y > 119) :
    zigzag_cc cc ≤ 643 ∧
    ∃ k : ℕ, k ≤ 59 ∧ (move (zigzag_hat cc y) x y).2 =
      2 * k + ydisp (if zigzag_cc cc = 643 then 0 else zigzag_cc cc) := by
  obtain ⟨k, hk59, hk⟩ := hex
  rcases eq_or_ne cc 643 with h643 | h643
  · subst h643
    rw [if_pos rfl] at hk
    have h0 : ydisp 0 = 0 := by decide
    rw [h0] at hk
    rw [show zigzag_cc 643 = 1 from rfl]
    refine ⟨by norm_num, k, hk59, ?_⟩
    rw [hat_643, if_neg (by norm_num)]
    have h1 : ydisp 1 = 1 := by decide
    rw [h1]
    simp only [move, HAT_BOTTOM, HAT_RIGHT, HAT_LEFT, HAT_TOP]
    norm_num
    omega
  · have hle : cc ≤ 642 := by omega
    rw [if_neg h643] at hk
    have hcc1 : zigzag_cc cc = cc + 1 := by simp [zigzag_cc, h643]
    rw [hcc1]
    rcases eq_or_ne cc 642 with h642 | h642
    · subst h642
      have hy2 : ydisp 642 = 2 := by decide
      rw [hy2] at hk
      refine ⟨by norm_num, k + 1, by omega, ?_⟩
      rw [hat_642, if_pos (by norm_num)]
      have h0 : ydisp 0 = 0 := by decide
      rw [h0]
      simp only [move, HAT_CENTER, HAT_BOTTOM, HAT_RIGHT, HAT_LEFT, HAT_TOP]
      norm_num
      omega
    · refine ⟨by omega, k, hk59, ?_⟩
      rw [move_y_vshift cc x y hle, if_neg (by omega)]
      have hstep := ydisp_step cc (by omega)
      omega

/-- On the tick that completes the scan, the pattern decision is the
centered hat, so the transition report is the neutral report. -/
theorem zig_done_entry (cc : ℕ) (y : ℤ) (hcc : cc ≤ 643)
    (hex : ∃ k : ℕ, k ≤ 59 ∧ y = 2 * k + ydisp (if cc = 643 then 0 else cc))
    (hy : y > 119) :
    zigzag_hat cc y = HAT_CENTER := by
  obtain ⟨k, hk59, hk⟩ := hex
  have hge : 2 ≤ ydisp (if cc = 643 then 0 else cc) := by
    have hd2 : ydisp (if cc = 643 then 0 else cc) ≤ 2 := by
      unfold ydisp
      split_ifs <;> omega
    omega
  have hnorm : (if cc = 643 then 0 else cc) = 642 := by
    rcases eq_or_ne cc 643 with h | h
    · rw [if_pos h] at hge
      have : ydisp 0 = 0 := by decide
      omega
    · rw [if_neg h] at hge ⊢
      by_contra hne
      have hlt : cc ≤ 641 := by omega
      have : ydisp cc ≤ 1 := by
        unfold ydisp
        split_ifs <;> omega
      omega
  rw [zigzag_hat_norm, hnorm, hat_642]

theorem inv_step (img : ℕ → ℕ) (rst : Bool) (s : Mach) (h : MInv s) :
    MInv (getNextReport img rst s).1 := by
  obtain ⟨st, lr, e, cc, x, y⟩ := s
  by_cases he : e = 0
  · subst he
    cases st with
    | SYNC_CONTROLLER =>
      by_cases h1 : cc > ms_2_count 2000
      · have hstate : (getNextReport img rst ⟨.SYNC_CONTROLLER, lr, 0, cc, x, y⟩).1.state =
            PState.SYNC_POSITION := by
          simp [getNextReport, h1]
        exact inv_of_state_other _ (by rw [hstate]; decide) (by rw [hstate]; decide)
      · have hstate : (getNextReport img rst ⟨.SYNC_CONTROLLER, lr, 0, cc, x, y⟩).1.state =
            PState.SYNC_CONTROLLER := by
          simp [getNextReport, h1]
        exact inv_of_state_other _ (by rw [hstate]; decide) (by rw [hstate]; decide)
    | SYNC_POSITION =>
      by_cases h1 : cc > ms_2_count 4000
      · have hstate : (getNextReport img rst ⟨.SYNC_POSITION, lr, 0, cc, x, y⟩).1.state =
            PState.ZIG_ZAG := by
          simp [getNextReport, h1, move, neutralReport, HAT_CENTER,
            HAT_RIGHT, HAT_LEFT, HAT_TOP, HAT_BOTTOM]
        have hccP : (getNextReport img rst ⟨.SYNC_POSITION, lr, 0, cc, x, y⟩).1.command_count =
            0 := by
          simp [getNextReport, h1, move, neutralReport, HAT_CENTER,
            HAT_RIGHT, HAT_LEFT, HAT_TOP, HAT_BOTTOM]
        have hyP : (getNextReport img rst ⟨.SYNC_POSITION, lr, 0, cc, x, y⟩).1.ypos = 0 := by
          simp [getNextReport, h1, move, neutralReport, HAT_CENTER,
            HAT_RIGHT, HAT_LEFT, HAT_TOP, HAT_BOTTOM]
        refine inv_of_components _ hstate (by rw [hccP]; norm_num) ?_
        refine ⟨0, by norm_num, ?_⟩
        rw [hccP, hyP]
        decide
      · have hstate : (getNextReport img rst ⟨.SYNC_POSITION, lr, 0, cc, x, y⟩).1.state =
            PState.SYNC_POSITION := by
          simp [getNextReport, h1]
        exact inv_of_state_other _ (by rw [hstate]; decide) (by rw [hstate]; decide)
    | ZIG_ZAG =>
      obtain ⟨hcc, hex⟩ := h.1 rfl
      by_cases hy : y > 119
      · have hhat := zig_done_entry cc y hcc hex hy
        have hstate : (getNextReport img rst ⟨.ZIG_ZAG, lr, 0, cc, x, y⟩).1.state =
            PState.DONE := by
          simp [getNextReport, hy]
        have hlast : (getNextReport img rst ⟨.ZIG_ZAG, lr, 0, cc, x, y⟩).1.last_report =
            { neutralReport with HAT := zigzag_hat cc y } := by
          simp [getNextReport, hy]
        refine ⟨fun hz => ?_, fun _ => ?_⟩
        · rw [hstate] at hz
          exact absurd hz (by decide)
        · rw [hlast, hhat]
          rfl
      · by_cases hr : rst = true
        · subst hr
          have hstate : (getNextReport img true ⟨.ZIG_ZAG, lr, 0, cc, x, y⟩).1.state =
              PState.SYNC_POSITION := by
            simp [getNextReport, hy]
          exact inv_of_state_other _ (by rw [hstate]; decide) (by rw [hstate]; decide)
        · replace hr : rst = false := by
            cases rst
            · rfl
            · exact absurd rfl hr
          subst hr
          obtain ⟨hc1, hex1⟩ := zig_inv_step cc x y hcc hex hy
          have hstate : (getNextReport img false ⟨.ZIG_ZAG, lr, 0, cc, x, y⟩).1.state =
              PState.ZIG_ZAG := by
            simp [getNextReport, hy]
          have hccP : (getNextReport img false ⟨.ZIG_ZAG, lr, 0, cc, x, y⟩).1.command_count =
              zigzag_cc cc := by
            simp [getNextReport, hy]
          have hyP : (getNextReport img false ⟨.ZIG_ZAG, lr, 0, cc, x, y⟩).1.ypos =
              (move (zigzag_hat cc y) x y).2 := by
            simp [getNextReport, hy]
          refine inv_of_components _ hstate (by rw [hccP]; exact hc1) ?_
          rw [hccP, hyP]
          exact hex1
    | DONE =>
      have hres : (getNextReport img rst ⟨.DONE, lr, 0, cc, x, y⟩).1 =
          ⟨.DONE, lr, 0, cc, x, y⟩ := by
        simp [getNextReport]
      rw [hres]
      exact h
  · have hpos : e > 0 := Nat.pos_of_ne_zero he
    have hres : (getNextReport img rst ⟨st, lr, e, cc, x, y⟩).1 =
        ⟨st, lr, e - 1, cc, x, y⟩ := by
      simp [getNextReport, hpos]
    rw [hres]
    exact h

/-- A tick taken in DONE with the invariant: the state stays DONE, the
invariant is kept, and the emitted report is the neutral report. -/
theorem done_tick (img : ℕ → ℕ) (rst : Bool) (s : Mach) (h : MInv s)
    (hd : s.state = PState.DONE) :
    (getNextReport img rst s).1.state = PState.DONE ∧
    MInv (getNextReport img rst s).1 ∧
    (getNextReport img rst s).2 = neutralReport := by
  obtain ⟨st, lr, e, cc, x, y⟩ := s
  simp only at hd
  subst hd
  have hlast : lr = neutralReport := h.2 rfl
  subst hlast
  by_cases he : e = 0
  · subst he
    refine ⟨by simp [getNextReport], inv_step img rst _ h, by simp [getNextReport]⟩
  · have hpos : e > 0 := Nat.pos_of_ne_zero he
    refine ⟨by simp [getNextReport, hpos], inv_step img rst _ h, by simp [getNextReport, hpos]⟩

theorem done_run (img : ℕ → ℕ) (inp : ℕ → Bool) (s : Mach) (h : MInv s)
    (hd : s.state = PState.DONE) :
    ∀ k : ℕ, (runFrom img inp s k).state = PState.DONE ∧ MInv (runFrom img inp s k) := by
  intro k
  induction k with
  | zero => exact ⟨hd, h⟩
  | succ k ih =>
    have hstep := done_tick img (inp k) (runFrom img inp s k) ih.2 ih.1
    exact ⟨hstep.1, hstep.2.1⟩

theorem inv_run (img : ℕ → ℕ) (inp : ℕ → Bool) :
    ∀ n : ℕ, MInv (runFrom img inp initMach n) := by
  intro n
  induction n with
  | zero =>
    refine ⟨fun hst => ?_, fun hst => ?_⟩ <;> simp [initMach, runFrom] at hst
  | succ n ih => exact inv_step img (inp n) _ ih

/-- C6.  The DONE state is absorbing and quiescent: the invariant MInv holds
on every state of the real run, and from any invariant-satisfying DONE
state every subsequent tick leaves the state DONE and emits the neutral
report, so all reports emitted after completion are identical to each
other. -/
theorem C6_done_idempotent :
    (∀ (img : ℕ → ℕ) (inp : ℕ → Bool) (n : ℕ), MInv (runFrom img inp initMach n)) ∧
    (∀ (img : ℕ → ℕ) (inp : ℕ → Bool) (s : Mach), MInv s → s.state = PState.DONE →
      ∀ k : ℕ, (runFrom img inp s k).state = PState.DONE ∧
        emitFrom img inp s k = neutralReport) := by
  constructor
  · exact fun img inp n => inv_run img inp n
  · intro img inp s h hd k
    obtain ⟨hst, hinv⟩ := done_run img inp s h hd k
    exact ⟨hst, (done_tick img (inp k) _ hinv hst).2.2⟩

/-- Witness for C6 from the completed state. -/
theorem C6_done_idempotent_witness :
    (runFrom img0 inp0 machDone 3).state = PState.DONE ∧
    emitFrom img0 inp0 machDone 3 = neutralReport :=
  C6_done_idempotent.2 img0 inp0 machDone
    ⟨fun hz => absurd hz (by decide), fun _ => rfl⟩ rfl 3
